import Mathlib

/-
Verification of the runtype runtime type registry and streaming
(de)serialization engine (src/include/runtype.hpp).

Modelling conventions:
* Input streams are modelled at the token level: an `IStream` is the list
  of whitespace-delimited tokens remaining on the stream plus a fail flag
  (the iostream failbit).  Formatted extraction (`operator>>`) consumes at
  most one token per call; output (`operator<<`) emits one token per call.
* The C++ engine is a template over a closed set of scalar kinds.  The
  model instantiates it with the kinds `int` and `string`, mirroring the
  instantiation used by the repository's tests (floating point is outside
  the shallow embedding).  `int` extraction follows C++ semantics: an
  optional sign followed by decimal digits; on conversion failure the
  value is set to 0, the failbit is set and the token is not consumed; at
  end of stream the sentry fails and the value is left unchanged.
* `OrderPreservingMap` is modelled by its observable content: the list of
  key/value pairs in insertion order (the `vec_` ordering together with
  the values held by `map_`).
* `std::map` (the basic and compound registries) is modelled as an
  association list; only lookup and insert-if-absent are ever observed,
  so the sorted order of `std::map` is irrelevant.
* Exceptions are modelled with `Except`; the stream state at the throw
  point is returned alongside, since the C++ stream is an external
  by-reference object that keeps the tokens consumed before the throw.
* The recursion of `CompoundInstance::read` through the resolver is not
  structurally terminating (a cyclic schema overflows the C++ call
  stack), so the model adds a fuel parameter bounding the nesting depth;
  running out of fuel is a distinct outcome `RdErr.outOfFuel`.
-/

namespace Runtype

/-- An input stream: remaining tokens plus the failbit. -/
structure IStream where
  tokens : List String
  failed : Bool
deriving DecidableEq

/-- The closed set of scalar kinds the template is instantiated with. -/
inductive Kind where
  | kInt
  | kStr
deriving DecidableEq

/-- The tagged-union payload of `Basic` (`std::variant<int, std::string>`). -/
inductive BasicVal where
  | vInt (n : Int)
  | vStr (s : String)
deriving DecidableEq

/-- The active variant alternative of a `Basic` value. -/
def BasicVal.kind : BasicVal → Kind
  | .vInt _ => .kInt
  | .vStr _ => .kStr

/-- The default-constructed value of each kind (`T()` in `Basic::create`). -/
def Kind.defaultVal : Kind → BasicVal
  | .kInt => .vInt 0
  | .kStr => .vStr ""

/-! ### Decimal tokens: the textual format of the `int` kind -/

/-- The decimal digit character for `d % 10`. -/
def digitChar (d : Nat) : Char :=
  match d with
  | 0 => '0' | 1 => '1' | 2 => '2' | 3 => '3' | 4 => '4'
  | 5 => '5' | 6 => '6' | 7 => '7' | 8 => '8' | _ => '9'

/-- Whether a character is a decimal digit. -/
def isDigitCh (c : Char) : Bool := 48 ≤ c.toNat && c.toNat ≤ 57

/-- Numeric value of a digit character. -/
def charVal (c : Char) : Nat := c.toNat - 48

/-- Value of a big-endian digit string. -/
def digitsVal (l : List Char) : Nat := l.foldl (fun a c => a * 10 + charVal c) 0

/-- Big-endian digits of a natural number; the first argument is fuel
bounding the recursion depth so that the definition is structural and
evaluates in the kernel. -/
def natToCharsAux : Nat → Nat → List Char
  | 0, _ => []
  | fuel + 1, n =>
    if n < 10 then [digitChar n]
    else natToCharsAux fuel (n / 10) ++ [digitChar (n % 10)]

/-- Big-endian digits of a natural number. -/
def natToChars (n : Nat) : List Char := natToCharsAux (n + 1) n

/-- Parse an unsigned run of digits, as C++ integer extraction does after
the optional sign. -/
def parseDigits (l : List Char) : Option Nat :=
  if l.isEmpty then none
  else if l.all isDigitCh then some (digitsVal l) else none

/-- Parse a whole token as a C++ `int` extraction would: an optional sign
followed by at least one digit. -/
def parseIntChars : List Char → Option Int
  | [] => none
  | c :: rest =>
    if c = '-' then (parseDigits rest).map (fun n => -(n : Int))
    else if c = '+' then (parseDigits rest).map (fun n => (n : Int))
    else (parseDigits (c :: rest)).map (fun n => (n : Int))

/-- Parse a token as an `int`. -/
def parseIntTok (t : String) : Option Int := parseIntChars t.toList

/-- Print an `int` the way `operator<<` does. -/
def printInt (n : Int) : String :=
  if n < 0 then ⟨'-' :: natToChars n.natAbs⟩ else ⟨natToChars n.natAbs⟩

/-- The single token `operator<<` emits for a scalar value. -/
def BasicVal.tok : BasicVal → String
  | .vInt n => printInt n
  | .vStr s => s

/-- `Basic::write`: emit the active alternative as one token. -/
def BasicVal.write (b : BasicVal) : List String := [b.tok]

/-- `Basic::read`: formatted extraction into the active alternative.  The
kind never changes.  With the failbit set the sentry fails and nothing
happens; at end of input the sentry fails and sets the failbit; a token
that does not parse as an `int` sets the value to 0 (C++11), sets the
failbit and does not consume the token. -/
def BasicVal.read (b : BasicVal) (s : IStream) : BasicVal × IStream :=
  if s.failed then (b, s)
  else
    match s.tokens with
    | [] => (b, ⟨[], true⟩)
    | t :: ts =>
      match b with
      | .vInt _ =>
        match parseIntTok t with
        | some n => (.vInt n, ⟨ts, false⟩)
        | none => (.vInt 0, ⟨t :: ts, true⟩)
      | .vStr _ => (.vStr t, ⟨ts, false⟩)

/-- `Basic::create<T>`: default-construct a value of the kind, then read. -/
def Basic.create (k : Kind) (s : IStream) : BasicVal × IStream :=
  (k.defaultVal).read s

/-! ### Association lists (`std::map` lookup; `OrderPreservingMap` content) -/

/-- Lookup in an association list (`std::map::at` / iteration-based
membership checks agree on this). -/
def alookup {K V : Type} [DecidableEq K] : List (K × V) → K → Option V
  | [], _ => none
  | p :: rest, k => if p.1 = k then some p.2 else alookup rest k

/-- Whether the keys of an association list are pairwise distinct. -/
def nodupKeys {K V : Type} [DecidableEq K] : List (K × V) → Bool
  | [] => true
  | p :: rest => !(alookup rest p.1).isSome && nodupKeys rest

/-- `OrderPreservingMap`: the hash map `map_` together with the insertion
order `vec_`, observable as the list of key/value pairs in insertion
order. -/
structure OPMap (K V : Type) where
  entries : List (K × V)
deriving DecidableEq

/-- `OrderPreservingMap::insert` (with `track_insert`): no-op returning
`false` if the key exists, otherwise the pair is appended at the end of
the insertion order and `true` is returned. -/
def OPMap.insert {K V : Type} [DecidableEq K] (m : OPMap K V) (p : K × V) :
    OPMap K V × Bool :=
  if (alookup m.entries p.1).isSome then (m, false)
  else (⟨m.entries ++ [p]⟩, true)

/-- Build an `OrderPreservingMap` by emplacing a list of pairs in order
(the initializer-list constructor). -/
def OPMap.ofList {K V : Type} [DecidableEq K] (l : List (K × V)) : OPMap K V :=
  l.foldl (fun m p => (m.insert p).1) ⟨[]⟩

/-- The number of stored pairs (`map_.size()`, which equals the length of
`vec_`). -/
def OPMap.size {K V : Type} (m : OPMap K V) : Nat := m.entries.length

/-- The pairwise loop of `OrderPreservingMap::operator==`, embedded
exactly as written at src/include/runtype.hpp:348-354: the loop runs
while both iterators are in range and bails out on
`lhs_it->first != rhs_it->first || lhs_it->second != lhs_it->second`
(note that the second disjunct compares the left value with itself). -/
def opmapEqLoop {K V : Type} [DecidableEq K] [BEq V] :
    List (K × V) → List (K × V) → Bool
  | (k1, v1) :: ls, (k2, _) :: rs =>
    if k1 ≠ k2 || v1 != v1 then false else opmapEqLoop ls rs
  | _, _ => true

/-- `OrderPreservingMap::operator==` as implemented: size check, then the
pairwise loop. -/
def opmapEq {K V : Type} [DecidableEq K] [BEq V] (lhs rhs : OPMap K V) : Bool :=
  if lhs.size ≠ rhs.size then false else opmapEqLoop lhs.entries rhs.entries

/-- `operator[]` followed by assignment (`members_[name] = ...`): default
insert-and-return then overwrite, i.e. replace in place if the key
exists, otherwise append at the end of the insertion order. -/
def store {V : Type} : List (String × V) → String → V → List (String × V)
  | [], k, v => [(k, v)]
  | (k', v') :: rest, k, v =>
    if k' = k then (k', v) :: rest else (k', v') :: store rest k v

/-! ### Schemas and the registry -/

/-- `CompoundType::Member`: the declared type name of a member. -/
structure Member where
  type : String
deriving DecidableEq

/-- `CompoundType`: a named schema with an insertion-ordered member map. -/
structure CompoundType where
  name : String
  members : OPMap String Member
deriving DecidableEq

/-- The `CompoundType` constructor: the member map is built by emplacing
the initializer list in order. -/
def mkCompoundType (name : String) (l : List (String × Member)) : CompoundType :=
  ⟨name, OPMap.ofList l⟩

/-- The fixed basic-type registry seeded at process start
(`makeTypeMap<B>({"int", "string"})`): type name to scalar kind, where
the kind stands for the stored `create<T>` constructor. -/
def basicTypes : List (String × Kind) := [("int", Kind.kInt), ("string", Kind.kStr)]

/-- `BasicResolver::resolveBasic` (`basicTypes.at`). -/
def lookupBasic (s : String) : Option Kind := alookup basicTypes s

/-- `BasicResolver::isBasicType`. -/
def isBasicType (s : String) : Bool := (lookupBasic s).isSome

/-- The compound registry `compoundTypes` (a `std::map`; only lookup and
insert-if-absent are observable, so an association list suffices). -/
abbrev Reg := List (String × CompoundType)

/-- `BasicResolver::resolveCompound` (`compoundTypes.at`). -/
def resolveCompound? (reg : Reg) (s : String) : Option CompoundType := alookup reg s

/-- `BasicResolver::isCompoundType`. -/
def isCompoundType (reg : Reg) (s : String) : Bool := (resolveCompound? reg s).isSome

/-- `BasicResolver::registerCompoundType`:
`compoundTypes.emplace(type.name(), type)` — insert if the name is
absent, otherwise do nothing.  There is no check against the basic-type
map and nothing is ever thrown. -/
def registerCompoundType (reg : Reg) (ct : CompoundType) : Reg :=
  if (alookup reg ct.name).isSome then reg else reg ++ [(ct.name, ct)]

/-- Well-formedness of a registry state reachable through
`registerCompoundType`: every entry is keyed by the schema's own name
and every registered schema has pairwise-distinct member names (its
member map is an `OrderPreservingMap`). -/
def regWF (reg : Reg) : Bool :=
  reg.all (fun p => p.2.name == p.1 && nodupKeys p.2.members.entries)

/-! ### Records (`CompoundInstance`) -/

/-- A polymorphic member value (`detail::TypeInstance`): either a scalar
`Basic` or a nested `CompoundInstance` holding its schema and its
insertion-ordered member list. -/
inductive Inst where
  | basic (b : BasicVal)
  | comp (ct : CompoundType) (ms : List (String × Inst))

/-- Errors thrown during `CompoundInstance` construction:
`std::out_of_range` from `resolveCompound` (NotFound), the
`"No such type"` `std::runtime_error` (UnknownType), and exhaustion of
the modelled call-stack fuel. -/
inductive RdErr where
  | notFound
  | unknownType
  | outOfFuel
deriving DecidableEq

/-- The loop body of `CompoundInstance::read`: for each schema member, in
declared order, read a value with the given member reader and store it
under the member name via `members_[name] = ...`; a throw aborts the
loop, the stream keeping the tokens consumed so far. -/
def readList (rd : Member → IStream → Except RdErr Inst × IStream) :
    List (String × Member) → List (String × Inst) → IStream →
    Except RdErr (List (String × Inst)) × IStream
  | [], acc, s => (Except.ok acc, s)
  | (name, m) :: rest, acc, s =>
    match rd m s with
    | (Except.ok i, s1) => readList rd rest (store acc name i) s1
    | (Except.error e, s1) => (Except.error e, s1)

/-- Reading one member at nesting depth 0: a basic member is read with
`resolveBasic(member.type)(is)`; a compound member would need another
stack frame, which the fuel no longer provides; otherwise the
`"No such type"` error is thrown.  `isBasicType` is checked before
`isCompoundType`, as in the source. -/
def readMemZ (reg : Reg) (m : Member) (s : IStream) : Except RdErr Inst × IStream :=
  match lookupBasic m.type with
  | some k => (Except.ok (Inst.basic (Basic.create k s).1), (Basic.create k s).2)
  | none =>
    match resolveCompound? reg m.type with
    | some _ => (Except.error RdErr.outOfFuel, s)
    | none => (Except.error RdErr.unknownType, s)

/-- Reading one member with one more stack frame available: a compound
member is read by `resolveCompound(member.type).create<R>(is)`, which
re-resolves the schema by its own name (the `CompoundInstance`
constructor) and then runs the member loop on a fresh member map. -/
def readMemStep (reg : Reg) (rd : Member → IStream → Except RdErr Inst × IStream)
    (m : Member) (s : IStream) : Except RdErr Inst × IStream :=
  match lookupBasic m.type with
  | some k => (Except.ok (Inst.basic (Basic.create k s).1), (Basic.create k s).2)
  | none =>
    match resolveCompound? reg m.type with
    | some ct =>
      match resolveCompound? reg ct.name with
      | none => (Except.error RdErr.notFound, s)
      | some ct2 =>
        match readList rd ct2.members.entries [] s with
        | (Except.ok ms, s1) => (Except.ok (Inst.comp ct2 ms), s1)
        | (Except.error e, s1) => (Except.error e, s1)
    | none => (Except.error RdErr.unknownType, s)

/-- Reading one member at the given nesting depth. -/
def readMem (reg : Reg) : Nat → Member → IStream → Except RdErr Inst × IStream
  | 0 => readMemZ reg
  | fuel + 1 => readMemStep reg (readMem reg fuel)

/-- `CompoundInstance(type, is)`: resolve the type name (throwing
NotFound if it is not registered), then read every schema member in
declared order into a fresh member map. -/
def construct (reg : Reg) (fuel : Nat) (typeName : String) (s : IStream) :
    Except RdErr Inst × IStream :=
  match resolveCompound? reg typeName with
  | none => (Except.error RdErr.notFound, s)
  | some ct =>
    match readList (readMem reg fuel) ct.members.entries [] s with
    | (Except.ok ms, s1) => (Except.ok (Inst.comp ct ms), s1)
    | (Except.error e, s1) => (Except.error e, s1)

mutual
/-- `TypeInstance::write` dispatch: a scalar writes its token, a nested
record writes its members. -/
def Inst.write : Inst → List String
  | .basic b => b.write
  | .comp _ ms => writeList ms

/-- `CompoundInstance::write`: members are written back-to-back in
insertion (= schema-declared) order. -/
def writeList : List (String × Inst) → List String
  | [] => []
  | (_, i) :: rest => i.write ++ writeList rest
end

/-! ### Typed member extraction -/

/-- Errors of typed extraction: `std::out_of_range` from `members_.at`
(NotFound), `std::bad_cast` from the `dynamic_cast` in
`Basic(const TypeInstance&)`, and `std::bad_variant_access` from
`std::get` in `Basic::get` (the latter two are the type-mismatch
class). -/
inductive GetErr where
  | notFound
  | badCast
  | badVariant
deriving DecidableEq

/-- `getAs<Kind>(memberName)`: `operator()(name)` fetches the member
(`members_.at`), the result is cast to `Basic` and the requested
alternative extracted with `Basic::get`. -/
def getAs (ms : List (String × Inst)) (n : String) (k : Kind) :
    Except GetErr BasicVal :=
  match alookup ms n with
  | none => Except.error GetErr.notFound
  | some (Inst.comp _ _) => Except.error GetErr.badCast
  | some (Inst.basic b) =>
    if b.kind = k then Except.ok b else Except.error GetErr.badVariant

/-! ### Specification-side definitions -/

/-- A token is canonical when, whichever kind accepts it, that kind
prints the parsed value back as the same token.  Every token is
canonical for the string kind; for the int kind this rules out
redundant forms such as a leading `+` or leading zeros. -/
def canonical (t : String) : Bool :=
  match parseIntTok t with
  | some n => printInt n == t
  | none => true

/-- Whether a token is accepted by a kind's formatted extraction. -/
def tokenOK : Kind → String → Bool
  | .kInt, t => (parseIntTok t).isSome
  | .kStr, _ => true

/-- Build a map by inserting a list of pairs in order. -/
def buildMap {K V : Type} [DecidableEq K] (l : List (K × V)) : OPMap K V :=
  l.foldl (fun m p => (m.insert p).1) ⟨[]⟩

/-- Whether every type name reachable from a member declaration resolves
(basic first, then compound) within the given nesting depth, so that
construction cannot throw UnknownType or run out of fuel. -/
def completeMem (reg : Reg) : Nat → Member → Bool
  | 0, m =>
    match lookupBasic m.type with
    | some _ => true
    | none => false
  | fuel + 1, m =>
    match lookupBasic m.type with
    | some _ => true
    | none =>
      match resolveCompound? reg m.type with
      | some ct =>
        match resolveCompound? reg ct.name with
        | none => false
        | some ct2 => ct2.members.entries.all (fun p => completeMem reg fuel p.2)
      | none => false

/-- `completeMem` for every member of a schema's member list. -/
def completeList (reg : Reg) (fuel : Nat) (l : List (String × Member)) : Bool :=
  l.all (fun p => completeMem reg fuel p.2)

mutual
/-- A member value is of its declared type: a known basic type name holds
a scalar of that kind; a known compound type name holds a nested record
of the resolved schema whose members are recursively well-typed.  The
basic map takes precedence, as in `CompoundInstance::read`. -/
inductive InstOK (reg : Reg) : String → Inst → Prop where
  | basic : ∀ {t : String} {k : Kind} {b : BasicVal},
      lookupBasic t = some k → b.kind = k → InstOK reg t (Inst.basic b)
  | comp : ∀ {t : String} {ct : CompoundType} {ms : List (String × Inst)},
      lookupBasic t = none → resolveCompound? reg t = some ct →
      MembersOK reg ct.members.entries ms → InstOK reg t (Inst.comp ct ms)

/-- A member list matches a schema's member declarations: same names in
the same order, each value of its declared type. -/
inductive MembersOK (reg : Reg) :
    List (String × Member) → List (String × Inst) → Prop where
  | nil : MembersOK reg [] []
  | cons : ∀ {n : String} {m : Member} {rest : List (String × Member)}
      {i : Inst} {irest : List (String × Inst)},
      InstOK reg m.type i → MembersOK reg rest irest →
      MembersOK reg ((n, m) :: rest) ((n, i) :: irest)
end

mutual
/-- A member value is the default-constructed value of its declared
type: the default scalar for a basic type name, or a nested record all
of whose members are recursively default. -/
inductive DefOK (reg : Reg) : String → Inst → Prop where
  | basic : ∀ {t : String} {k : Kind},
      lookupBasic t = some k → DefOK reg t (Inst.basic k.defaultVal)
  | comp : ∀ {t : String} {ct : CompoundType} {ms : List (String × Inst)},
      lookupBasic t = none → resolveCompound? reg t = some ct →
      DefListOK reg ct.members.entries ms → DefOK reg t (Inst.comp ct ms)

/-- A member list carries the schema's names in order, every value
default-constructed. -/
inductive DefListOK (reg : Reg) :
    List (String × Member) → List (String × Inst) → Prop where
  | nil : DefListOK reg [] []
  | cons : ∀ {n : String} {m : Member} {rest : List (String × Member)}
      {i : Inst} {irest : List (String × Inst)},
      DefOK reg m.type i → DefListOK reg rest irest →
      DefListOK reg ((n, m) :: rest) ((n, i) :: irest)
end

/-- The soundness bundle for a member reader: a failed stream is left
untouched, and a successful read yields a well-typed value whose
written form is exactly the consumed tokens (when those are canonical
and no failure occurred). -/
structure RdOK (reg : Reg)
    (rd : Member → IStream → Except RdErr Inst × IStream) : Prop where
  frozen : ∀ m s, s.failed = true → (rd m s).2 = s
  sound : ∀ m s i s1, rd m s = (Except.ok i, s1) →
    InstOK reg m.type i ∧
    (s1.failed = false → s.failed = false) ∧
    (s.failed = false → s1.failed = false →
      (∀ t ∈ s.tokens, canonical t = true) →
      s.tokens = Inst.write i ++ s1.tokens)

/-! ### Concrete fixtures used by the witnesses -/

/-- The `multiType`-style test schema, restricted to the modelled kinds. -/
def ctMulti : CompoundType :=
  mkCompoundType "multiType" [("i", ⟨"int"⟩), ("s1", ⟨"string"⟩)]

/-- The `nestedType` test schema: a basic member and a compound member. -/
def ctNested : CompoundType :=
  mkCompoundType "nestedType" [("i", ⟨"int"⟩), ("m", ⟨"multiType"⟩)]

/-- The `incompleteType` test schema: its second member names a type
that is never registered. -/
def ctInc : CompoundType :=
  mkCompoundType "incType" [("a", ⟨"int"⟩), ("m", ⟨"NOPE"⟩)]

/-- A registry holding the three fixture schemas. -/
def regW : Reg :=
  registerCompoundType
    (registerCompoundType (registerCompoundType [] ctMulti) ctNested) ctInc

/-! ### Lemmas: the decimal token format round-trips -/

theorem charVal_digitChar {d : Nat} (hd : d < 10) : charVal (digitChar d) = d := by
  interval_cases d <;> rfl

theorem isDigitCh_digitChar {d : Nat} (hd : d < 10) :
    isDigitCh (digitChar d) = true := by
  interval_cases d <;> rfl

theorem natToCharsAux_ne_nil {fuel n : Nat} (h : n < fuel) :
    natToCharsAux fuel n ≠ [] := by
  induction fuel generalizing n with
  | zero => omega
  | succ f ih =>
    by_cases h10 : n < 10
    · simp [natToCharsAux, h10]
    · have hdiv : n / 10 < n := Nat.div_lt_self (by omega) (by omega)
      simp only [natToCharsAux, if_neg h10]
      intro hc
      exact List.append_ne_nil_of_right_ne_nil _ (by simp) hc

theorem natToCharsAux_all_digit {fuel n : Nat} (h : n < fuel) :
    (natToCharsAux fuel n).all isDigitCh = true := by
  induction fuel generalizing n with
  | zero => omega
  | succ f ih =>
    by_cases h10 : n < 10
    · simp [natToCharsAux, h10, isDigitCh_digitChar h10]
    · have hdiv : n / 10 < n := Nat.div_lt_self (by omega) (by omega)
      have hmod : n % 10 < 10 := Nat.mod_lt _ (by omega)
      have h1 := ih (show n / 10 < f by omega)
      simp only [natToCharsAux, if_neg h10, List.all_append, Bool.and_eq_true]
      exact ⟨h1, by simp [isDigitCh_digitChar hmod]⟩

theorem digitsVal_append_singleton (l : List Char) (c : Char) :
    digitsVal (l ++ [c]) = digitsVal l * 10 + charVal c := by
  simp [digitsVal, List.foldl_append]

theorem digitsVal_natToCharsAux {fuel n : Nat} (h : n < fuel) :
    digitsVal (natToCharsAux fuel n) = n := by
  induction fuel generalizing n with
  | zero => omega
  | succ f ih =>
    by_cases h10 : n < 10
    · simp only [natToCharsAux, if_pos h10]
      simp [digitsVal, charVal_digitChar h10]
    · have hdiv : n / 10 < n := Nat.div_lt_self (by omega) (by omega)
      have hmod : n % 10 < 10 := Nat.mod_lt _ (by omega)
      simp only [natToCharsAux, if_neg h10]
      rw [digitsVal_append_singleton, ih (by omega), charVal_digitChar hmod]
      omega

theorem parseDigits_natToChars (n : Nat) : parseDigits (natToChars n) = some n := by
  have h : n < n + 1 := Nat.lt_succ_self n
  unfold natToChars parseDigits
  rw [if_neg, if_pos (natToCharsAux_all_digit h)]
  · rw [digitsVal_natToCharsAux h]
  · simpa using natToCharsAux_ne_nil h

theorem head_natToChars_not_sign {n : Nat} {c : Char} {rest : List Char}
    (h : natToChars n = c :: rest) : c ≠ '-' ∧ c ≠ '+' := by
  have hd : isDigitCh c = true := by
    have := natToCharsAux_all_digit (Nat.lt_succ_self n)
    rw [natToChars] at h
    rw [h] at this
    simp [List.all_cons] at this
    exact this.1
  constructor <;> intro hc <;> subst hc <;> simp [isDigitCh] at hd

/-- Printing an `int` and parsing the result recovers the value. -/
theorem parseIntTok_printInt (n : Int) : parseIntTok (printInt n) = some n := by
  by_cases hn : n < 0
  · have : printInt n = ⟨'-' :: natToChars n.natAbs⟩ := by rw [printInt, if_pos hn]
    rw [this]
    show parseIntChars ('-' :: natToChars n.natAbs) = some n
    simp [parseIntChars, parseDigits_natToChars]
    rw [abs_of_neg hn, neg_neg]
  · have : printInt n = ⟨natToChars n.natAbs⟩ := by rw [printInt, if_neg hn]
    rw [this]
    show parseIntChars (natToChars n.natAbs) = some n
    obtain ⟨c, rest, hc⟩ : ∃ c rest, natToChars n.natAbs = c :: rest := by
      cases h : natToChars n.natAbs with
      | nil => exact absurd h (natToCharsAux_ne_nil (Nat.lt_succ_self _))
      | cons c rest => exact ⟨c, rest, rfl⟩
    obtain ⟨h1, h2⟩ := head_natToChars_not_sign hc
    rw [hc]
    simp only [parseIntChars, if_neg h1, if_neg h2, ← hc, parseDigits_natToChars]
    simp
    omega

/-! ### Lemmas: association lists and stores -/

theorem alookup_mem {K V : Type} [DecidableEq K] {l : List (K × V)} {k : K} {v : V}
    (h : alookup l k = some v) : (k, v) ∈ l := by
  induction l with
  | nil => simp [alookup] at h
  | cons p rest ih =>
    cases p with
    | mk k' v' =>
      by_cases hp : k' = k
      · subst hp
        simp only [alookup, if_pos rfl] at h
        injection h with h
        subst h
        exact List.mem_cons_self _ _
      · simp only [alookup, if_neg hp] at h
        exact List.mem_cons_of_mem _ (ih h)

theorem alookup_none_ne {K V : Type} [DecidableEq K] {l : List (K × V)} {k : K}
    (h : alookup l k = none) : ∀ p ∈ l, p.1 ≠ k := by
  induction l with
  | nil => simp
  | cons p rest ih =>
    by_cases hp : p.1 = k
    · simp [alookup, if_pos hp] at h
    · simp only [alookup, if_neg hp] at h
      intro q hq
      rcases List.mem_cons.mp hq with rfl | hq'
      · exact hp
      · exact ih h q hq'

theorem alookup_append {K V : Type} [DecidableEq K] (l1 l2 : List (K × V)) (k : K) :
    alookup (l1 ++ l2) k =
      match alookup l1 k with
      | some v => some v
      | none => alookup l2 k := by
  induction l1 with
  | nil => simp [alookup]
  | cons p rest ih =>
    by_cases hp : p.1 = k
    · simp [alookup, if_pos hp]
    · simp only [List.cons_append, alookup, if_neg hp]
      exact ih

theorem store_of_absent {V : Type} {acc : List (String × V)} {k : String} (v : V)
    (h : alookup acc k = none) : store acc k v = acc ++ [(k, v)] := by
  induction acc with
  | nil => rfl
  | cons p rest ih =>
    have hp : p.1 ≠ k := by
      by_contra hc
      simp [alookup, if_pos hc] at h
    simp only [alookup, if_neg hp] at h
    cases p with
    | mk k' v' =>
      simp only [store, if_neg hp, List.cons_append]
      rw [ih h]

theorem nodupKeys_cons {K V : Type} [DecidableEq K] {p : K × V} {rest : List (K × V)}
    (h : nodupKeys (p :: rest) = true) :
    alookup rest p.1 = none ∧ nodupKeys rest = true := by
  simp only [nodupKeys, Bool.and_eq_true, Bool.not_eq_true'] at h
  refine ⟨?_, h.2⟩
  have h1 := h.1
  cases hl : alookup rest p.1 with
  | none => rfl
  | some v => rw [hl] at h1; simp at h1

/-! ### Lemmas: the registry -/

theorem regWF_resolve {reg : Reg} {t : String} {ct : CompoundType}
    (hwf : regWF reg = true) (h : resolveCompound? reg t = some ct) :
    ct.name = t ∧ nodupKeys ct.members.entries = true := by
  have hmem : (t, ct) ∈ reg := alookup_mem h
  have := List.all_eq_true.mp hwf _ hmem
  simp only [Bool.and_eq_true, beq_iff_eq] at this
  exact this

/-! ### Lemmas: scalar reads -/

/-- Reading never changes the active kind. -/
theorem read_kind (b : BasicVal) (s : IStream) : (b.read s).1.kind = b.kind := by
  unfold BasicVal.read
  by_cases hf : s.failed
  · simp [hf]
  · cases ht : s.tokens with
    | nil => simp [hf, ht]
    | cons t ts =>
      cases b with
      | vInt n =>
        cases hp : parseIntTok t <;> simp [hf, ht, hp, BasicVal.kind]
      | vStr v => simp [hf, ht, BasicVal.kind]

/-- `create<T>` yields a value of the requested kind. -/
theorem create_kind (k : Kind) (s : IStream) : (Basic.create k s).1.kind = k := by
  rw [Basic.create, read_kind]
  cases k <;> rfl

/-- A stream with the failbit set is left untouched by a read. -/
theorem read_frozen (b : BasicVal) {s : IStream} (h : s.failed = true) :
    b.read s = (b, s) := by
  unfold BasicVal.read
  simp [h]

/-- Analysis of a successful `create` from a healthy stream: one token
was consumed, and if it was canonical the created value writes back as
exactly that token. -/
theorem create_consume {k : Kind} {s : IStream} {b : BasicVal} {s1 : IStream}
    (hread : Basic.create k s = (b, s1))
    (hs : s.failed = false) (hs1 : s1.failed = false) :
    s.tokens = b.tok :: s1.tokens ∨
      (∃ t, s.tokens = t :: s1.tokens ∧ canonical t = false) := by
  rw [Basic.create] at hread
  unfold BasicVal.read at hread
  rw [hs] at hread
  simp only [Bool.false_eq_true, if_false] at hread
  cases ht : s.tokens with
  | nil =>
    rw [ht] at hread
    simp only at hread
    cases hread
    simp at hs1
  | cons t ts =>
    rw [ht] at hread
    cases k with
    | kInt =>
      simp only [Kind.defaultVal] at hread
      cases hp : parseIntTok t with
      | some n =>
        rw [hp] at hread
        simp only [Prod.mk.injEq] at hread
        obtain ⟨hb, hs1'⟩ := hread
        by_cases hcan : canonical t = true
        · left
          have : printInt n = t := by
            have := hcan
            unfold canonical at this
            rw [hp] at this
            exact (beq_iff_eq).mp this
          rw [← hs1', ← hb]
          simp [BasicVal.tok, this]
        · right
          exact ⟨t, by rw [← hs1'], by simpa using hcan⟩
      | none =>
        rw [hp] at hread
        simp only [Prod.mk.injEq] at hread
        obtain ⟨_, hs1'⟩ := hread
        rw [← hs1'] at hs1
        simp at hs1
    | kStr =>
      simp only [Kind.defaultVal] at hread
      simp only [Prod.mk.injEq] at hread
      obtain ⟨hb, hs1'⟩ := hread
      left
      rw [← hs1', ← hb]
      simp [BasicVal.tok]

/-- A successful read from a stream that ends healthy started healthy. -/
theorem create_failed_reflect {k : Kind} {s : IStream} {b : BasicVal} {s1 : IStream}
    (hread : Basic.create k s = (b, s1)) (hs1 : s1.failed = false) :
    s.failed = false := by
  by_contra hs
  have hs' : s.failed = true := by simpa using hs
  rw [Basic.create, read_frozen _ hs'] at hread
  cases hread
  rw [hs'] at hs1
  simp at hs1

/-- Well-typed member lists carry exactly the schema's member names, in
declared order. -/
theorem MembersOK_map_fst {reg : Reg} {l : List (String × Member)}
    {ms : List (String × Inst)} (h : MembersOK reg l ms) :
    ms.map Prod.fst = l.map Prod.fst := by
  induction l generalizing ms with
  | nil => cases h; rfl
  | cons p rest ih =>
    cases h with
    | cons hi hrest => simp [ih hrest]

/-- The member loop leaves a failed stream untouched. -/
theorem readList_frozen {rd : Member → IStream → Except RdErr Inst × IStream}
    (hrd : ∀ m s, s.failed = true → (rd m s).2 = s) :
    ∀ (l : List (String × Member)) (acc : List (String × Inst)) (s : IStream),
      s.failed = true → (readList rd l acc s).2 = s := by
  intro l
  induction l with
  | nil => intro acc s _; rfl
  | cons p rest ih =>
    intro acc s hs
    cases p with
    | mk name m =>
      simp only [readList]
      cases hr : rd m s with
      | mk r sm =>
        have hsm : sm = s := by
          have := hrd m s hs
          rw [hr] at this
          exact this
        subst hsm
        cases r with
        | ok i => exact ih _ _ hs
        | error e => rfl

/-- Soundness of the member loop, given a sound member reader: the new
entries are appended behind the accumulator in declared order, they are
well-typed, and their written form is the consumed token prefix. -/
theorem readList_ok_sound {reg : Reg}
    {rd : Member → IStream → Except RdErr Inst × IStream} (h : RdOK reg rd) :
    ∀ (l : List (String × Member)) (acc : List (String × Inst)) (s : IStream)
      (out : List (String × Inst)) (s1 : IStream),
      readList rd l acc s = (Except.ok out, s1) →
      nodupKeys l = true →
      (∀ p ∈ l, alookup acc p.1 = none) →
      ∃ news, out = acc ++ news ∧ MembersOK reg l news ∧
        (s1.failed = false → s.failed = false) ∧
        (s.failed = false → s1.failed = false →
          (∀ t ∈ s.tokens, canonical t = true) →
          s.tokens = writeList news ++ s1.tokens) := by
  intro l
  induction l with
  | nil =>
    intro acc s out s1 hread _ _
    simp only [readList, Prod.mk.injEq] at hread
    obtain ⟨hout, hs1⟩ := hread
    injection hout with hout
    subst hout
    subst hs1
    exact ⟨[], by simp, MembersOK.nil, fun hf => hf, fun _ _ _ => by simp [writeList]⟩
  | cons p rest ih =>
    intro acc s out s1 hread hnodup hdisj
    cases p with
    | mk name m =>
      obtain ⟨hrestnone, hrestnodup⟩ := nodupKeys_cons hnodup
      simp only [readList] at hread
      cases hr : rd m s with
      | mk r sm =>
        rw [hr] at hread
        cases r with
        | error e => simp at hread
        | ok i =>
          simp only at hread
          have haccname : alookup acc name = none := hdisj (name, m) (by simp)
          rw [store_of_absent i haccname] at hread
          have hdisj2 : ∀ p ∈ rest, alookup (acc ++ [(name, i)]) p.1 = none := by
            intro q hq
            rw [alookup_append]
            rw [hdisj q (List.mem_cons_of_mem _ hq)]
            have hqname : q.1 ≠ name := alookup_none_ne hrestnone q hq
            simp only [alookup]
            rw [if_neg (fun hc => hqname hc.symm)]
          obtain ⟨news, hout, hmem, hrefl, htok⟩ :=
            ih (acc ++ [(name, i)]) sm out s1 hread hrestnodup hdisj2
          obtain ⟨hiOK, hireflect, hitok⟩ := h.sound m s i sm hr
          refine ⟨(name, i) :: news, ?_, MembersOK.cons hiOK hmem, ?_, ?_⟩
          · rw [hout, List.append_assoc]
            rfl
          · exact fun hf => hireflect (hrefl hf)
          · intro hs hfin hcanon
            have hsm : sm.failed = false := hrefl hfin
            have heq := hitok hs hsm hcanon
            have hcanon2 : ∀ t ∈ sm.tokens, canonical t = true := by
              intro t ht
              exact hcanon t (by rw [heq]; exact List.mem_append_right _ ht)
            have heq2 := htok hsm hfin hcanon2
            rw [heq, heq2, writeList, List.append_assoc]

/-- The basic-member branch shared by every fuel level: a successful
`create` is well typed and accounts for its consumed token. -/
theorem basic_branch_sound {reg : Reg} {m : Member} {k : Kind} {s : IStream}
    {i : Inst} {s1 : IStream} (hb : lookupBasic m.type = some k)
    (hread : ((Except.ok (Inst.basic (Basic.create k s).1) :
        Except RdErr Inst), (Basic.create k s).2) = (Except.ok i, s1)) :
    InstOK reg m.type i ∧
    (s1.failed = false → s.failed = false) ∧
    (s.failed = false → s1.failed = false →
      (∀ t ∈ s.tokens, canonical t = true) →
      s.tokens = Inst.write i ++ s1.tokens) := by
  cases hc : Basic.create k s with
  | mk b s2 =>
    rw [hc] at hread
    simp only [Prod.mk.injEq] at hread
    obtain ⟨hi, hs1⟩ := hread
    injection hi with hi
    subst hi
    subst hs1
    refine ⟨InstOK.basic hb ?_, fun hf => create_failed_reflect hc hf, ?_⟩
    · have hk := create_kind k s
      rw [hc] at hk
      exact hk
    · intro hs hfin hcanon
      rcases create_consume hc hs hfin with heq | ⟨t, heq, hbad⟩
      · rw [heq]
        simp [Inst.write, BasicVal.write]
      · have hct := hcanon t (by rw [heq]; exact List.mem_cons_self _ _)
        simp [hct] at hbad

/-- Every fueled member reader satisfies the soundness bundle, provided
the registry is well-formed. -/
theorem readMem_ok (reg : Reg) (hwf : regWF reg = true) :
    ∀ fuel, RdOK reg (readMem reg fuel) := by
  intro fuel
  induction fuel with
  | zero =>
    constructor
    · intro m s hs
      simp only [readMem, readMemZ]
      split
      · show (Basic.create _ s).2 = s
        rw [Basic.create, read_frozen _ hs]
      · split
        · rfl
        · rfl
    · intro m s i s1 hread
      simp only [readMem, readMemZ] at hread
      split at hread
      · next k hb => exact basic_branch_sound hb hread
      · split at hread
        · simp at hread
        · simp at hread
  | succ f ihf =>
    constructor
    · intro m s hs
      simp only [readMem, readMemStep]
      split
      · show (Basic.create _ s).2 = s
        rw [Basic.create, read_frozen _ hs]
      · split
        · split
          · rfl
          · next ct2 hc2 =>
            have hfr := readList_frozen ihf.frozen ct2.members.entries [] s hs
            split
            · next ms s1 hrl =>
              show s1 = s
              rw [hrl] at hfr
              exact hfr
            · next e s1 hrl =>
              show s1 = s
              rw [hrl] at hfr
              exact hfr
        · rfl
    · intro m s i s1 hread
      simp only [readMem, readMemStep] at hread
      split at hread
      · next k hb => exact basic_branch_sound hb hread
      · next hb =>
        split at hread
        · next ct hc =>
          obtain ⟨hname, hnodup⟩ := regWF_resolve hwf hc
          split at hread
          · simp at hread
          · next ct2 hc2 =>
            have hct2 : ct = ct2 := by
              rw [hname, hc] at hc2
              injection hc2 with hc2
            subst hct2
            split at hread
            · next ms sm hrl =>
              simp only [Prod.mk.injEq] at hread
              obtain ⟨hi, hs1⟩ := hread
              injection hi with hi
              subst hi
              subst hs1
              obtain ⟨news, hout, hmem, hrefl, htok⟩ :=
                readList_ok_sound ihf ct.members.entries [] s ms sm hrl hnodup
                  (fun q _ => rfl)
              have hnews : ms = news := by simpa using hout
              subst hnews
              refine ⟨InstOK.comp hb hc hmem, hrefl, ?_⟩
              intro hs hfin hcanon
              have heq := htok hs hfin hcanon
              rw [heq]
              simp [Inst.write]
            · simp at hread
        · simp at hread

/-! ### The member loop on a split schema, and the unknown-type throw -/

/-- The member loop over a concatenated member list runs the first part
and, if that did not throw, continues with the second part from where
the stream was left. -/
theorem readList_append (rd : Member → IStream → Except RdErr Inst × IStream)
    (l1 l2 : List (String × Member)) (acc : List (String × Inst)) (s : IStream) :
    readList rd (l1 ++ l2) acc s =
      match readList rd l1 acc s with
      | (Except.ok acc1, s1) => readList rd l2 acc1 s1
      | (Except.error e, s1) => (Except.error e, s1) := by
  induction l1 generalizing acc s with
  | nil => rfl
  | cons p rest ih =>
    cases p with
    | mk name m =>
      show (match rd m s with
        | (Except.ok i, s1) => readList rd (rest ++ l2) (store acc name i) s1
        | (Except.error e, s1) => (Except.error e, s1)) = _
      cases hr : rd m s with
      | mk r sm =>
        cases r with
        | ok i =>
          simp only [readList, hr]
          exact ih (store acc name i) sm
        | error e => simp [readList, hr]

/-- A member whose declared type is neither a known basic nor a known
compound type makes the member reader throw the UnknownType error at
every fuel level, leaving the stream where it was. -/
theorem readMem_unknown (reg : Reg) (fuel : Nat) {m : Member} (s : IStream)
    (hb : lookupBasic m.type = none) (hc : resolveCompound? reg m.type = none) :
    readMem reg fuel m s = (Except.error RdErr.unknownType, s) := by
  cases fuel with
  | zero => simp [readMem, readMemZ, hb, hc]
  | succ f => simp [readMem, readMemStep, hb, hc]

/-! ### Building an OrderPreservingMap by successive inserts -/

theorem buildMap_go {K V : Type} [DecidableEq K] :
    ∀ (l : List (K × V)) (acc : OPMap K V),
      nodupKeys l = true →
      (∀ p ∈ l, alookup acc.entries p.1 = none) →
      l.foldl (fun m p => (m.insert p).1) acc = ⟨acc.entries ++ l⟩ := by
  intro l
  induction l with
  | nil => intro acc _ _; simp
  | cons p rest ih =>
    intro acc hnodup hdisj
    obtain ⟨hrestnone, hrestnodup⟩ := nodupKeys_cons hnodup
    have haccp : alookup acc.entries p.1 = none := hdisj p (by simp)
    have hins : (acc.insert p).1 = ⟨acc.entries ++ [p]⟩ := by
      simp [OPMap.insert, haccp]
    simp only [List.foldl_cons, hins]
    rw [ih ⟨acc.entries ++ [p]⟩ hrestnodup]
    · simp
    · intro q hq
      rw [alookup_append, hdisj q (List.mem_cons_of_mem _ hq)]
      have hqp : q.1 ≠ p.1 := alookup_none_ne hrestnone q hq
      simp only [alookup]
      rw [if_neg (fun hcon => hqp hcon.symm)]

/-- Inserting pairwise-distinct keys yields exactly that entry list. -/
theorem buildMap_entries {K V : Type} [DecidableEq K] (l : List (K × V))
    (hl : nodupKeys l = true) : (buildMap l).entries = l := by
  rw [buildMap, buildMap_go l ⟨[]⟩ hl (fun p _ => rfl)]
  simp

/-! ### Default-valued construction from an exhausted stream -/

/-- Reading a scalar from a stream with no tokens yields the default
value and only sets the failbit; no error escapes. -/
theorem create_empty (k : Kind) {s : IStream} (h : s.tokens = []) :
    Basic.create k s = (k.defaultVal, ⟨[], true⟩) := by
  cases s with
  | mk toks fl =>
    simp only at h
    subst h
    cases fl with
    | true => rw [Basic.create, read_frozen _ rfl]
    | false =>
      rw [Basic.create]
      unfold BasicVal.read
      simp

/-- The member loop over completely-resolvable members succeeds on a
tokenless stream, producing default values in declared order. -/
theorem readList_empty {reg : Reg}
    {rd : Member → IStream → Except RdErr Inst × IStream} (cm : Member → Bool)
    (hrd : ∀ m s, cm m = true → s.tokens = [] →
      ∃ i s1, rd m s = (Except.ok i, s1) ∧ DefOK reg m.type i ∧ s1.tokens = []) :
    ∀ (l : List (String × Member)) (acc : List (String × Inst)) (s : IStream),
      l.all (fun p => cm p.2) = true → s.tokens = [] →
      nodupKeys l = true → (∀ p ∈ l, alookup acc p.1 = none) →
      ∃ news s1, readList rd l acc s = (Except.ok (acc ++ news), s1) ∧
        DefListOK reg l news ∧ s1.tokens = [] := by
  intro l
  induction l with
  | nil =>
    intro acc s _ hs _ _
    exact ⟨[], s, by simp [readList], DefListOK.nil, hs⟩
  | cons p rest ih =>
    intro acc s hall hs hnodup hdisj
    cases p with
    | mk name m =>
      simp only [List.all_cons, Bool.and_eq_true] at hall
      obtain ⟨hrestnone, hrestnodup⟩ := nodupKeys_cons hnodup
      obtain ⟨i, s1, hr, hdef, hs1⟩ := hrd m s hall.1 hs
      have haccname : alookup acc name = none := hdisj (name, m) (by simp)
      have hdisj2 : ∀ q ∈ rest, alookup (acc ++ [(name, i)]) q.1 = none := by
        intro q hq
        rw [alookup_append, hdisj q (List.mem_cons_of_mem _ hq)]
        have hqname : q.1 ≠ name := alookup_none_ne hrestnone q hq
        simp only [alookup]
        rw [if_neg (fun hcon => hqname hcon.symm)]
      obtain ⟨news, s2, hrl, hdl, hs2⟩ :=
        ih (acc ++ [(name, i)]) s1 hall.2 hs1 hrestnodup hdisj2
      refine ⟨(name, i) :: news, s2, ?_, DefListOK.cons hdef hdl, hs2⟩
      simp only [readList, hr]
      rw [store_of_absent i haccname, hrl, List.append_assoc]
      rfl

/-- Reading one completely-resolvable member from a tokenless stream
succeeds with the default value of its declared type. -/
theorem readMem_empty (reg : Reg) (hwf : regWF reg = true) :
    ∀ fuel (m : Member) (s : IStream), completeMem reg fuel m = true →
      s.tokens = [] →
      ∃ i s1, readMem reg fuel m s = (Except.ok i, s1) ∧
        DefOK reg m.type i ∧ s1.tokens = [] := by
  intro fuel
  induction fuel with
  | zero =>
    intro m s hcm hs
    simp only [completeMem] at hcm
    split at hcm
    · next k hb =>
      refine ⟨Inst.basic k.defaultVal, ⟨[], true⟩, ?_, DefOK.basic hb, rfl⟩
      simp [readMem, readMemZ, hb, create_empty k hs]
    · simp at hcm
  | succ f ihf =>
    intro m s hcm hs
    simp only [completeMem] at hcm
    split at hcm
    · next k hb =>
      refine ⟨Inst.basic k.defaultVal, ⟨[], true⟩, ?_, DefOK.basic hb, rfl⟩
      simp [readMem, readMemStep, hb, create_empty k hs]
    · next hb =>
      split at hcm
      · next ct hc =>
        split at hcm
        · simp at hcm
        · next ct2 hc2 =>
          obtain ⟨hname, hnodup⟩ := regWF_resolve hwf hc
          have hct2 : ct = ct2 := by
            rw [hname, hc] at hc2
            injection hc2 with hc2
          subst hct2
          obtain ⟨news, s1, hrl, hdl, hs1⟩ :=
            readList_empty (completeMem reg f) (fun m s => ihf m s)
              ct.members.entries [] s hcm hs hnodup (fun q _ => rfl)
          refine ⟨Inst.comp ct news, s1, ?_, DefOK.comp hb hc hdl, hs1⟩
          simp only [readMem, readMemStep, hb, hc, hc2]
          simp only [List.nil_append] at hrl
          rw [hrl]
      · simp at hcm

/-! ### The claims -/

/-- C1: the claim says that registering a compound schema whose name
equals a registered basic type name fails with SchemaConflict and the
compound map gains no entry under that name.  The code
(`BasicResolver::registerCompoundType`, src/include/runtype.hpp:600-602)
does not consult the basic map and never throws: registering a compound
named `int` while `int` is a basic type silently inserts it into the
compound map, so the name becomes simultaneously basic and compound.
This theorem evaluates the code at that failing input.  The repository's
own test (`test_runtype.cpp`, section `Adding a type with the same name
as a Basic throws`) requires a throw, so the code contradicts its own
test suite and the claim is taken as the intent. -/
theorem claim_C1_code_eval :
    isBasicType "int" = true ∧
      isCompoundType (registerCompoundType [] (mkCompoundType "int" [])) "int" = true ∧
      registerCompoundType [] (mkCompoundType "int" []) =
        [("int", mkCompoundType "int" [])] :=
  ⟨rfl, rfl, rfl⟩

/-- C2: for every registered schema and every stream that supplies one
valid (canonical) token per member, recursively in declared order,
constructing a record and then writing it back reproduces exactly the
consumed token sequence: the input tokens are the written tokens
followed by the leftover tokens.  Success of construction with both
failbits clear formalises that the stream held one valid token per
member. -/
theorem claim_C2_schema_round_trip (reg : Reg) (fuel : Nat) (typeName : String)
    (s s1 : IStream) (r : Inst)
    (hwf : regWF reg = true)
    (hcon : construct reg fuel typeName s = (Except.ok r, s1))
    (hs : s.failed = false) (hs1 : s1.failed = false)
    (hcanon : ∀ t ∈ s.tokens, canonical t = true) :
    s.tokens = Inst.write r ++ s1.tokens := by
  unfold construct at hcon
  split at hcon
  · simp at hcon
  · next ct hres =>
    obtain ⟨hname, hnodup⟩ := regWF_resolve hwf hres
    split at hcon
    · next ms sm hrl =>
      simp only [Prod.mk.injEq] at hcon
      obtain ⟨hr, hsm⟩ := hcon
      injection hr with hr
      subst hr
      subst hsm
      obtain ⟨news, hout, _, _, htok⟩ :=
        readList_ok_sound (readMem_ok reg hwf fuel) ct.members.entries [] s ms sm
          hrl hnodup (fun q _ => rfl)
      have hnews : ms = news := by simpa using hout
      subst hnews
      rw [htok hs hs1 hcanon]
      simp [Inst.write]
    · simp at hcon

/-- Witness for C2: the nested fixture schema read from the token stream
`6 10 hello` and written back reproduces those tokens. -/
theorem claim_C2_witness :
    (⟨["6", "10", "hello"], false⟩ : IStream).tokens =
      Inst.write (Inst.comp ctNested
        [("i", Inst.basic (BasicVal.vInt 6)),
         ("m", Inst.comp ctMulti
            [("i", Inst.basic (BasicVal.vInt 10)),
             ("s1", Inst.basic (BasicVal.vStr "hello"))])]) ++
        (⟨[], false⟩ : IStream).tokens :=
  claim_C2_schema_round_trip regW 2 "nestedType" ⟨["6", "10", "hello"], false⟩
    ⟨[], false⟩ _ rfl rfl rfl rfl (by decide)

/-- C3: the claim says `OrderPreservingMap` structural equality holds if
and only if both maps have the same key/value pairs in the same order,
and in particular maps differing in a value compare unequal.  The code
(src/include/runtype.hpp:351) compares `lhs_it->second` with itself
instead of with `rhs_it->second`, so values are never compared: the two
singleton maps below hold the same key in the same order but different
values, yet the implemented equality returns true. -/
theorem claim_C3_code_eval :
    opmapEq (OPMap.mk [("a", (1 : Int))]) (OPMap.mk [("a", (2 : Int))]) = true :=
  rfl

/-- C4: for every scalar value of every modelled kind, writing it to a
stream and reading that stream back into a default-constructed value of
the same kind recovers the value exactly (and consumes the whole
stream). -/
theorem claim_C4_value_round_trip (v : BasicVal) :
    BasicVal.read (v.kind.defaultVal) ⟨v.write, false⟩ = (v, ⟨[], false⟩) := by
  cases v with
  | vStr s => rfl
  | vInt n =>
    show BasicVal.read (BasicVal.vInt 0) ⟨[printInt n], false⟩ = _
    unfold BasicVal.read
    simp [BasicVal.write, BasicVal.tok, parseIntTok_printInt n]

/-- C5: registering a schema under a fresh name and then registering any
second schema with the same name leaves the first schema resolvable
under that name; the second registration is a no-op on the registry
(and, being a total function in the model, never throws). -/
theorem claim_C5_first_registration_wins (reg : Reg) (S1 S2 : CompoundType)
    (hname : S2.name = S1.name) (hfresh : resolveCompound? reg S1.name = none) :
    resolveCompound? (registerCompoundType (registerCompoundType reg S1) S2)
        S1.name = some S1 ∧
      registerCompoundType (registerCompoundType reg S1) S2 =
        registerCompoundType reg S1 := by
  have h1 : registerCompoundType reg S1 = reg ++ [(S1.name, S1)] := by
    rw [registerCompoundType]
    rw [resolveCompound?] at hfresh
    simp [hfresh]
  have h2 : resolveCompound? (reg ++ [(S1.name, S1)]) S1.name = some S1 := by
    rw [resolveCompound?] at hfresh ⊢
    rw [alookup_append, hfresh]
    simp [alookup]
  have h3 : registerCompoundType (reg ++ [(S1.name, S1)]) S2 =
      reg ++ [(S1.name, S1)] := by
    rw [registerCompoundType, hname]
    rw [resolveCompound?] at h2
    simp [h2]
  constructor
  · rw [h1, h3]
    exact h2
  · rw [h1, h3]

/-- Witness for C5: registering a structurally different schema under an
already-taken name leaves the first schema resolvable and the registry
unchanged. -/
theorem claim_C5_witness :
    resolveCompound? (registerCompoundType (registerCompoundType []
          (mkCompoundType "A" [("x", ⟨"int"⟩)])) (mkCompoundType "A" []))
        "A" = some (mkCompoundType "A" [("x", ⟨"int"⟩)]) ∧
      registerCompoundType (registerCompoundType []
          (mkCompoundType "A" [("x", ⟨"int"⟩)])) (mkCompoundType "A" []) =
        registerCompoundType [] (mkCompoundType "A" [("x", ⟨"int"⟩)]) :=
  claim_C5_first_registration_wins [] (mkCompoundType "A" [("x", ⟨"int"⟩)])
    (mkCompoundType "A" []) rfl rfl

/-- C6: if some member's declared type name is neither a registered
basic nor a registered compound type, construction throws UnknownType:
no record value is produced (the result is the error, carrying no
record), while the stream is left exactly where the successfully-read
earlier members put it — their tokens stay consumed and nothing is
rolled back. -/
theorem claim_C6_unknown_type (reg : Reg) (fuel : Nat) (typeName : String)
    (s s1 : IStream) (ct : CompoundType) (ms1 ms2 : List (String × Member))
    (nm : String) (m : Member) (acc1 : List (String × Inst))
    (hres : resolveCompound? reg typeName = some ct)
    (hsplit : ct.members.entries = ms1 ++ (nm, m) :: ms2)
    (hpre : readList (readMem reg fuel) ms1 [] s = (Except.ok acc1, s1))
    (hb : lookupBasic m.type = none) (hc : resolveCompound? reg m.type = none) :
    construct reg fuel typeName s = (Except.error RdErr.unknownType, s1) := by
  simp only [construct, hres, hsplit]
  rw [readList_append, hpre]
  simp only [readList, readMem_unknown reg fuel s1 hb hc]

/-- Witness for C6: constructing the incomplete fixture schema from the
stream `5 x` reads the first member (consuming `5`) and then throws
UnknownType with the stream positioned at `x`. -/
theorem claim_C6_witness :
    construct regW 1 "incType" ⟨["5", "x"], false⟩ =
      (Except.error RdErr.unknownType, ⟨["x"], false⟩) :=
  claim_C6_unknown_type regW 1 "incType" ⟨["5", "x"], false⟩ ⟨["x"], false⟩
    ctInc [("a", ⟨"int"⟩)] [] "m" ⟨"NOPE"⟩ [("a", Inst.basic (BasicVal.vInt 5))]
    rfl rfl rfl rfl rfl

/-- C7: a successfully constructed record is an instance of the resolved
schema whose member map holds exactly the schema's member names, in the
schema's declared order, each member holding a value of its declared
type, recursively. -/
theorem claim_C7_construction_invariant (reg : Reg) (fuel : Nat)
    (typeName : String) (s s1 : IStream) (r : Inst)
    (hwf : regWF reg = true)
    (hcon : construct reg fuel typeName s = (Except.ok r, s1)) :
    ∃ ct ms, resolveCompound? reg typeName = some ct ∧ r = Inst.comp ct ms ∧
      MembersOK reg ct.members.entries ms ∧
      ms.map Prod.fst = ct.members.entries.map Prod.fst := by
  unfold construct at hcon
  split at hcon
  · simp at hcon
  · next ct hres =>
    obtain ⟨hname, hnodup⟩ := regWF_resolve hwf hres
    split at hcon
    · next ms sm hrl =>
      simp only [Prod.mk.injEq] at hcon
      obtain ⟨hr, hsm⟩ := hcon
      injection hr with hr
      subst hr
      obtain ⟨news, hout, hmem, _, _⟩ :=
        readList_ok_sound (readMem_ok reg hwf fuel) ct.members.entries [] s ms sm
          hrl hnodup (fun q _ => rfl)
      have hnews : ms = news := by simpa using hout
      subst hnews
      exact ⟨ct, ms, hres, rfl, hmem, MembersOK_map_fst hmem⟩
    · simp at hcon

/-- Witness for C7: the record built from the multi-member fixture
schema and the stream `7 bye` matches its schema member-for-member. -/
theorem claim_C7_witness :
    ∃ ct ms, resolveCompound? regW "multiType" = some ct ∧
      Inst.comp ctMulti
          [("i", Inst.basic (BasicVal.vInt 7)),
           ("s1", Inst.basic (BasicVal.vStr "bye"))] = Inst.comp ct ms ∧
      MembersOK regW ct.members.entries ms ∧
      ms.map Prod.fst = ct.members.entries.map Prod.fst :=
  claim_C7_construction_invariant regW 1 "multiType" ⟨["7", "bye"], false⟩
    ⟨[], false⟩ _ rfl rfl

/-- C8: building an `OrderPreservingMap` by inserting pairwise-distinct
keys makes iteration visit exactly that insertion sequence, and
inserting an existing key returns false and leaves the map — stored
value, order and the key's position — unchanged. -/
theorem claim_C8_insertion_order {K V : Type} [DecidableEq K]
    (l : List (K × V)) (hl : nodupKeys l = true)
    (m : OPMap K V) (k : K) (v : V)
    (hk : (alookup m.entries k).isSome = true) :
    (buildMap l).entries = l ∧ m.insert (k, v) = (m, false) := by
  refine ⟨buildMap_entries l hl, ?_⟩
  rw [OPMap.insert]
  simp [hk]

/-- Witness for C8: inserting `z, a, p` in sequence iterates in exactly
that sequence, and re-inserting `a` afterwards changes nothing. -/
theorem claim_C8_witness :
    (buildMap [("z", 1), ("a", 4), ("p", 3)]).entries =
        ([("z", 1), ("a", 4), ("p", 3)] : List (String × Nat)) ∧
      OPMap.insert (buildMap [("z", 1), ("a", 4), ("p", 3)]) ("a", 9) =
        (buildMap [("z", 1), ("a", 4), ("p", 3)], false) :=
  claim_C8_insertion_order [("z", 1), ("a", 4), ("p", 3)] (by decide)
    (buildMap [("z", 1), ("a", 4), ("p", 3)]) "a" 9 (by decide)

/-- C9: typed extraction `getAs` fails with NotFound exactly when the
member name is absent; when the member exists but is not a basic value
of the requested active kind the failure is of the type-mismatch class
(`bad_cast` for a nested record, `bad_variant_access` for a scalar of
another kind), never NotFound. -/
theorem claim_C9_getAs_errors (ms : List (String × Inst)) (n : String) (k : Kind) :
    (alookup ms n = none → getAs ms n k = Except.error GetErr.notFound) ∧
    (∀ ct cms, alookup ms n = some (Inst.comp ct cms) →
       getAs ms n k = Except.error GetErr.badCast ∧
         GetErr.badCast ≠ GetErr.notFound) ∧
    (∀ b, alookup ms n = some (Inst.basic b) → b.kind ≠ k →
       getAs ms n k = Except.error GetErr.badVariant ∧
         GetErr.badVariant ≠ GetErr.notFound) := by
  refine ⟨?_, ?_, ?_⟩
  · intro h
    simp [getAs, h]
  · intro ct cms h
    simp [getAs, h]
  · intro b h hk
    simp [getAs, h, hk]

/-- Witness for C9: on a record with a scalar member `i` and a nested
record member `m`, an absent name gives NotFound, extracting `m` as a
scalar gives the cast failure and extracting `i` at the wrong kind
gives the variant failure — neither of the latter is NotFound. -/
theorem claim_C9_witness :
    getAs [("i", Inst.basic (BasicVal.vInt 5)), ("m", Inst.comp ctMulti [])]
        "zz" Kind.kInt = Except.error GetErr.notFound ∧
      (getAs [("i", Inst.basic (BasicVal.vInt 5)), ("m", Inst.comp ctMulti [])]
          "m" Kind.kInt = Except.error GetErr.badCast ∧
        GetErr.badCast ≠ GetErr.notFound) ∧
      (getAs [("i", Inst.basic (BasicVal.vInt 5)), ("m", Inst.comp ctMulti [])]
          "i" Kind.kStr = Except.error GetErr.badVariant ∧
        GetErr.badVariant ≠ GetErr.notFound) :=
  ⟨(claim_C9_getAs_errors
      [("i", Inst.basic (BasicVal.vInt 5)), ("m", Inst.comp ctMulti [])]
      "zz" Kind.kInt).1 rfl,
    (claim_C9_getAs_errors
      [("i", Inst.basic (BasicVal.vInt 5)), ("m", Inst.comp ctMulti [])]
      "m" Kind.kInt).2.1 ctMulti [] rfl,
    (claim_C9_getAs_errors
      [("i", Inst.basic (BasicVal.vInt 5)), ("m", Inst.comp ctMulti [])]
      "i" Kind.kStr).2.2 (BasicVal.vInt 5) rfl (by decide)⟩

/-- C10: token-level parse failures never raise errors.  Reading a
scalar from a tokenless stream returns normally with the
default-constructed value (only the failbit is set); a malformed token
likewise leaves the default value; and constructing a record of a
completely-resolvable schema from a tokenless stream completes
successfully with every member default-valued, recursively. -/
theorem claim_C10_no_parse_errors :
    (∀ (k : Kind) (s : IStream), s.tokens = [] →
       Basic.create k s = (k.defaultVal, ⟨[], true⟩)) ∧
    (∀ (k : Kind) (s : IStream) (t : String) (ts : List String),
       s.failed = false → s.tokens = t :: ts → tokenOK k t = false →
       (Basic.create k s).1 = k.defaultVal) ∧
    (∀ (reg : Reg) (fuel : Nat) (typeName : String) (ct : CompoundType)
       (s : IStream),
       regWF reg = true → resolveCompound? reg typeName = some ct →
       completeList reg fuel ct.members.entries = true → s.tokens = [] →
       ∃ ms s1, construct reg fuel typeName s =
           (Except.ok (Inst.comp ct ms), s1) ∧
         DefListOK reg ct.members.entries ms) := by
  refine ⟨fun k s hs => create_empty k hs, ?_, ?_⟩
  · intro k s t ts hf ht hbad
    cases k with
    | kStr => simp [tokenOK] at hbad
    | kInt =>
      rw [Basic.create]
      unfold BasicVal.read
      rw [hf, ht]
      cases hp : parseIntTok t with
      | some n =>
        simp only [tokenOK, hp] at hbad
        simp at hbad
      | none => simp [Kind.defaultVal, hp]
  · intro reg fuel typeName ct s hwf hres hcomplete hs
    obtain ⟨hname, hnodup⟩ := regWF_resolve hwf hres
    obtain ⟨news, s1, hrl, hdl, _⟩ :=
      readList_empty (completeMem reg fuel) (readMem_empty reg hwf fuel)
        ct.members.entries [] s hcomplete hs hnodup (fun q _ => rfl)
    refine ⟨news, s1, ?_, hdl⟩
    simp only [construct, hres]
    simp only [List.nil_append] at hrl
    rw [hrl]

/-- Witness for C10: an empty stream leaves an `int` scalar default, a
malformed token leaves it default, and the nested fixture schema is
constructed from an empty stream with all members default-valued. -/
theorem claim_C10_witness :
    Basic.create Kind.kInt ⟨[], false⟩ = (Kind.kInt.defaultVal, ⟨[], true⟩) ∧
      (Basic.create Kind.kInt ⟨["abc"], false⟩).1 = Kind.kInt.defaultVal ∧
      (∃ ms s1, construct regW 2 "nestedType" ⟨[], false⟩ =
          (Except.ok (Inst.comp ctNested ms), s1) ∧
        DefListOK regW ctNested.members.entries ms) :=
  ⟨claim_C10_no_parse_errors.1 Kind.kInt ⟨[], false⟩ rfl,
    claim_C10_no_parse_errors.2.1 Kind.kInt ⟨["abc"], false⟩ "abc" [] rfl rfl rfl,
    claim_C10_no_parse_errors.2.2 regW 2 "nestedType" ctNested ⟨[], false⟩
      rfl rfl rfl rfl⟩

end Runtype
